import Mathlib

/-!
Verification development for a small HTTP/1.1 server (Rust sources:
src/http_parser.rs, src/src/server.rs, src/src/http_response.rs,
src/src/config.rs, src/cgi.rs).

Modelling conventions (shallow embedding):
* Bytes are modelled as Lean Char values; the Rust sources only ever
  decode buffers with String::from_utf8_lossy before inspecting them, and
  every inspection is byte/ASCII oriented, so a byte is identified with
  the character of the same code point and from_utf8_lossy is the
  identity.  ASCII inputs are modelled exactly.
* Rust char case mappings (to_lowercase / to_uppercase) are modelled by
  the ASCII mappings (identity outside ASCII).
* HashMap<String,String> is modelled as an association list without
  duplicate keys: insert overwrites in place or appends, get searches by
  key.  Map iteration order is modelled as the list order.
* usize arithmetic: the only places overflow could occur are the parsed
  content-length / chunk-size values; those are modelled as unbounded Nat
  (a 2^64 wrap never matters for the claims below, which are about
  small inputs or are overflow-independent).  u16 parsing models the
  overflow failure of str::parse::<u16> explicitly.
-/

/-- Byte strings: a Rust byte / str content as a list of characters. -/
abbrev Str := List Char

/-- Rust char::is_whitespace (the Unicode White_Space set). -/
def rustIsWs (c : Char) : Bool :=
  c.toNat ∈ [0x09, 0x0A, 0x0B, 0x0C, 0x0D, 0x20, 0x85, 0xA0, 0x1680,
    0x2000, 0x2001, 0x2002, 0x2003, 0x2004, 0x2005, 0x2006, 0x2007,
    0x2008, 0x2009, 0x200A, 0x2028, 0x2029, 0x202F, 0x205F, 0x3000]

/-- Rust str::trim: drop Unicode whitespace from both ends. -/
def rustTrim (s : Str) : Str :=
  ((s.dropWhile rustIsWs).reverse.dropWhile rustIsWs).reverse

/-- Helper for splitWs: accumulates the current token (reversed). -/
def splitWsAux : Str → Str → List Str
  | [], acc => if acc.isEmpty then [] else [acc.reverse]
  | c :: cs, acc =>
    if rustIsWs c then
      if acc.isEmpty then splitWsAux cs []
      else acc.reverse :: splitWsAux cs []
    else splitWsAux cs (c :: acc)

/-- Rust str::split_whitespace: tokens separated by whitespace, no empties. -/
def splitWs (s : Str) : List Str := splitWsAux s []

/-- Rust str::to_lowercase, restricted to ASCII (see header comment). -/
def lowerStr (s : Str) : Str := s.map Char.toLower

/-- Rust str::to_uppercase, restricted to ASCII (see header comment). -/
def upperStr (s : Str) : Str := s.map Char.toUpper

/-- Rust char::to_digit(radix) for radix ≤ 36. -/
def digitVal (radix : Nat) (c : Char) : Option Nat :=
  let d :=
    if '0' ≤ c ∧ c ≤ '9' then some (c.toNat - '0'.toNat)
    else if 'a' ≤ c ∧ c ≤ 'z' then some (c.toNat - 'a'.toNat + 10)
    else if 'A' ≤ c ∧ c ≤ 'Z' then some (c.toNat - 'A'.toNat + 10)
    else none
  d.bind (fun n => if n < radix then some n else none)

/-- Digit-list accumulator for from_str_radix. -/
def parseDigitsAux (radix : Nat) (acc : Nat) : Str → Option Nat
  | [] => some acc
  | c :: cs =>
    match digitVal radix c with
    | none => none
    | some d => parseDigitsAux radix (acc * radix + d) cs

/-- Requires at least one digit and all characters digits. -/
def parseDigits (radix : Nat) : Str → Option Nat
  | [] => none
  | c :: cs => parseDigitsAux radix 0 (c :: cs)

/-- Rust usize::from_str_radix / str::parse for unsigned integers:
an optional leading '+', then one or more digits in the given radix.
Overflow of the 64-bit range is not modelled (see header comment). -/
def fromStrRadix (radix : Nat) (s : Str) : Option Nat :=
  match s with
  | '+' :: rest => parseDigits radix rest
  | _ => parseDigits radix s

/-- Rust str::parse::<u16>(), including its overflow failure. -/
def parseU16 (s : Str) : Option Nat :=
  (fromStrRadix 10 s).bind (fun n => if n < 65536 then some n else none)

/-- HashMap get, on the association-list model. -/
def hGet (k : Str) (hs : List (Str × Str)) : Option Str :=
  (hs.find? (fun p => p.1 == k)).map (·.2)

/-- HashMap insert, on the association-list model: overwrite or append. -/
def hInsert (k v : Str) (hs : List (Str × Str)) : List (Str × Str) :=
  if hs.any (fun p => p.1 == k) then
    hs.map (fun p => if p.1 == k then (k, v) else p)
  else hs ++ [(k, v)]

/-- First index at which pat occurs as a contiguous sublist
(Rust str::find for a string pattern). -/
def findSub (pat : Str) : Str → Option Nat
  | [] => if pat.isPrefixOf ([] : Str) then some 0 else none
  | c :: rest =>
    if pat.isPrefixOf (c :: rest) then some 0
    else (findSub pat rest).map (· + 1)

/-- Rust str::contains for a string pattern. -/
def containsSub (pat s : Str) : Bool := (findSub pat s).isSome

/-- Index of the first "\r\n" window in the buffer
(HttpParser::find_crlf, src/http_parser.rs line 220). -/
def findCrlf : Str → Option Nat
  | [] => none
  | [_] => none
  | a :: b :: t =>
    if a = '\r' ∧ b = '\n' then some 0
    else (findCrlf (b :: t)).map (· + 1)

/-- HttpRequest (src/http_parser.rs lines 3-24). -/
structure Req where
  method : Str
  uri : Str
  version : Str
  headers : List (Str × Str)
  body : Str
  complete : Bool
deriving DecidableEq, Repr

/-- HttpRequest::new. -/
def Req.new : Req :=
  { method := [], uri := [], version := [], headers := [], body := [],
    complete := false }

/-- ParserState (src/http_parser.rs lines 36-42). -/
inductive PState | requestLine | headers | body | done
deriving DecidableEq, Repr

/-- ChunkState (src/http_parser.rs lines 44-49). -/
inductive CState | size | dat | trailing
deriving DecidableEq, Repr

/-- HttpParser together with the HttpRequest it is filling in
(src/http_parser.rs lines 26-34; parse takes &mut HttpRequest, so the
request is part of the evolving state). -/
structure ParserS where
  pstate : PState
  buffer : Str
  headersComplete : Bool
  contentLength : Option Nat
  isChunked : Bool
  chunkSize : Nat
  chunkState : CState
  req : Req
deriving DecidableEq, Repr

/-- HttpParser::new paired with HttpRequest::new. -/
def ParserS.init : ParserS :=
  { pstate := .requestLine, buffer := [], headersComplete := false,
    contentLength := none, isChunked := false, chunkSize := 0,
    chunkState := .size, req := Req.new }

/-- Result of one primitive parser action: continue with a new state,
wait for more input (the Rust helpers return Ok(false)), or fail. -/
inductive StepRes
  | next (s : ParserS)
  | stuck
  | error (e : Str)
deriving DecidableEq, Repr

/-- One iteration of the RequestLine state
(HttpParser::parse_request_line, src/http_parser.rs lines 122-140;
a parts vector of length exactly 3 is the match [m, u, v]). -/
def stepRL (s : ParserS) : StepRes :=
  match findCrlf s.buffer with
  | none => .stuck
  | some pos =>
    match splitWs (s.buffer.take pos) with
    | [m, u, v] =>
      .next { s with
        pstate := .headers,
        buffer := s.buffer.drop (pos + 2),
        req := { s.req with method := upperStr m, uri := u, version := v } }
    | _ => .error "Invalid request line".data

/-- The end-of-headers bookkeeping of HttpParser::parse
(src/http_parser.rs lines 79-98): record content-length /
transfer-encoding and choose the next state.  Note the Rust code only
assigns the fields when the corresponding header is present. -/
def finishHeaders (s : ParserS) : ParserS :=
  let newCL :=
    match hGet "content-length".data s.req.headers with
    | some v => fromStrRadix 10 v
    | none => s.contentLength
  let newChunked : Bool :=
    match hGet "transfer-encoding".data s.req.headers with
    | some te => if containsSub "chunked".data (lowerStr te) then true else s.isChunked
    | none => s.isChunked
  let s := { s with headersComplete := true, contentLength := newCL,
                    isChunked := newChunked }
  if newCL.isSome || newChunked then { s with pstate := .body }
  else { s with pstate := .done, req := { s.req with complete := true } }

/-- One iteration of the header loop (HttpParser::parse_headers,
src/http_parser.rs lines 142-163), fused with the end-of-headers
bookkeeping of parse.  A line without ':' is skipped. -/
def stepHeaders (s : ParserS) : StepRes :=
  match findCrlf s.buffer with
  | none => .stuck
  | some 0 => .next (finishHeaders { s with buffer := s.buffer.drop 2 })
  | some pos =>
    let line := s.buffer.take pos
    let s' :=
      match line.findIdx? (· = ':') with
      | some colonPos =>
        let key := lowerStr (rustTrim (line.take colonPos))
        let value := rustTrim (line.drop (colonPos + 1))
        { s with req := { s.req with headers := hInsert key value s.req.headers } }
      | none => s
    .next { s' with buffer := s'.buffer.drop (pos + 2) }

/-- One iteration of the chunked-body loop
(HttpParser::parse_chunked_body, src/http_parser.rs lines 176-218). -/
def stepChunk (s : ParserS) : StepRes :=
  match s.chunkState with
  | .size =>
    match findCrlf s.buffer with
    | none => .stuck
    | some pos =>
      let sizeStr := s.buffer.take pos
      match fromStrRadix 16 (rustTrim (sizeStr.takeWhile (· ≠ ';'))) with
      | none => .error "Invalid chunk size".data
      | some n =>
        if n = 0 then
          .next { s with buffer := s.buffer.drop (pos + 2), chunkSize := n,
                         pstate := .done,
                         req := { s.req with complete := true } }
        else
          .next { s with buffer := s.buffer.drop (pos + 2), chunkSize := n,
                         chunkState := .dat }
  | .dat =>
    if s.chunkSize ≤ s.buffer.length then
      .next { s with req := { s.req with body := s.req.body ++ s.buffer.take s.chunkSize },
                     buffer := s.buffer.drop s.chunkSize,
                     chunkState := .trailing }
    else .stuck
  | .trailing =>
    if 2 ≤ s.buffer.length then
      .next { s with buffer := s.buffer.drop 2, chunkState := .size }
    else .stuck

/-- One iteration of the Body state (HttpParser::parse_body for the
fixed-length mode, src/http_parser.rs lines 165-174, or one iteration of
the chunked loop). -/
def stepBody (s : ParserS) : StepRes :=
  if s.isChunked then stepChunk s
  else
    match s.contentLength with
    | some cl =>
      if cl ≤ s.buffer.length then
        .next { s with req := { s.req with body := s.req.body ++ s.buffer.take cl,
                                           complete := true },
                       buffer := s.buffer.drop cl,
                       pstate := .done }
      else .stuck
    | none => .stuck

/-- One primitive action of HttpParser::parse's driving loop
(src/http_parser.rs lines 67-119).  The nested loops of parse_headers
and parse_chunked_body are flattened into this single step relation;
each arm performs exactly the buffer/state update of one iteration of
the corresponding Rust loop. -/
def step (s : ParserS) : StepRes :=
  match s.pstate with
  | .requestLine => stepRL s
  | .headers => stepHeaders s
  | .body => stepBody s
  | .done => .stuck

/-- The Done arm of parse sets request.complete (lines 114-117). -/
def setComplete (s : ParserS) : ParserS :=
  { s with req := { s.req with complete := true } }

/-- Rank of the driving-loop state, for termination. -/
def pRank : PState → Nat
  | .requestLine => 3
  | .headers => 2
  | .body => 1
  | .done => 0

/-- Rank of the chunk sub-state, for termination. -/
def cRank : CState → Nat
  | .size => 2
  | .dat => 1
  | .trailing => 0

/-- Termination measure for the parse loop: every continuing iteration
either consumes buffer bytes or advances the (sub-)state. -/
def measN (s : ParserS) : Nat :=
  16 * s.buffer.length + 4 * pRank s.pstate + cRank s.chunkState

theorem findCrlf_bound : ∀ (u : Str) (p : Nat), findCrlf u = some p → p + 2 ≤ u.length
  | [], p => by simp [findCrlf]
  | [c], p => by simp [findCrlf]
  | a :: b :: t, p => by
    intro h
    rw [findCrlf] at h
    split at h
    · cases h; simp
    · rcases Option.map_eq_some'.mp h with ⟨q, hq, hpq⟩
      have hb := findCrlf_bound (b :: t) q hq
      simp only [List.length_cons] at hb ⊢
      omega

theorem findCrlf_append : ∀ (u v : Str) (p : Nat),
    findCrlf u = some p → findCrlf (u ++ v) = some p
  | [], v, p => by simp [findCrlf]
  | [c], v, p => by simp [findCrlf]
  | a :: b :: t, v, p => by
    intro h
    rw [findCrlf] at h
    rw [List.cons_append, List.cons_append, findCrlf]
    split at h
    · cases h
      simp_all
    · rename_i hcond
      rcases Option.map_eq_some'.mp h with ⟨q, hq, hpq⟩
      rw [if_neg hcond]
      have := findCrlf_append (b :: t) v q hq
      rw [List.cons_append] at this
      rw [this]
      simp [hpq]
theorem finishHeaders_buffer (t : ParserS) : (finishHeaders t).buffer = t.buffer := by
  simp only [finishHeaders]
  split <;> rfl

theorem finishHeaders_chunkState (t : ParserS) :
    (finishHeaders t).chunkState = t.chunkState := by
  simp only [finishHeaders]
  split <;> rfl

theorem finishHeaders_pRank (t : ParserS) : pRank (finishHeaders t).pstate ≤ 1 := by
  simp only [finishHeaders]
  split <;> simp [pRank]

theorem stepRL_measN {s s' : ParserS} (hp : s.pstate = .requestLine)
    (h : stepRL s = .next s') : measN s' < measN s := by
  unfold stepRL at h
  cases hf : findCrlf s.buffer <;> simp only [hf] at h
  · exact absurd h (by simp)
  · rename_i pos
    have hb := findCrlf_bound s.buffer pos hf
    split at h
    · cases h
      simp only [measN, List.length_drop, hp, pRank]
      omega
    · exact absurd h (by simp)

theorem stepHeaders_measN {s s' : ParserS} (hp : s.pstate = .headers)
    (h : stepHeaders s = .next s') : measN s' < measN s := by
  unfold stepHeaders at h
  cases hf : findCrlf s.buffer <;> simp only [hf] at h
  · exact absurd h (by simp)
  · rename_i pos
    have hb := findCrlf_bound s.buffer pos hf
    cases pos with
    | zero =>
      simp only [] at h
      cases h
      have h1 := finishHeaders_buffer { s with buffer := s.buffer.drop 2 }
      have h2 := finishHeaders_chunkState { s with buffer := s.buffer.drop 2 }
      have h3 := finishHeaders_pRank { s with buffer := s.buffer.drop 2 }
      rw [hp] at h1 h2 h3
      have h5 : pRank PState.headers = 2 := rfl
      simp only [measN, h1, h2, hp, h5, List.length_drop]
      omega
    | succ pos =>
      simp only [] at h
      split at h <;> cases h <;>
        simp only [measN, List.length_drop, hp, pRank] <;> omega

theorem stepChunk_measN {s s' : ParserS} (hp : s.pstate = .body)
    (h : stepChunk s = .next s') : measN s' < measN s := by
  unfold stepChunk at h
  cases hc : s.chunkState <;> simp only [hc] at h
  · cases hf : findCrlf s.buffer <;> simp only [hf] at h
    · exact absurd h (by simp)
    · rename_i pos
      have hb := findCrlf_bound s.buffer pos hf
      split at h
      · exact absurd h (by simp)
      · split at h <;> cases h <;>
          simp only [measN, List.length_drop, hp, hc, pRank, cRank] <;> omega
  · split at h
    · cases h
      rename_i hlen
      simp only [measN, List.length_drop, hp, hc, pRank, cRank]
      omega
    · exact absurd h (by simp)
  · split at h
    · cases h
      rename_i hlen
      simp only [measN, List.length_drop, hp, hc, pRank, cRank]
      omega
    · exact absurd h (by simp)

theorem stepBody_measN {s s' : ParserS} (hp : s.pstate = .body)
    (h : stepBody s = .next s') : measN s' < measN s := by
  unfold stepBody at h
  split at h
  · exact stepChunk_measN hp h
  · cases hcl : s.contentLength <;> simp only [hcl] at h
    · exact absurd h (by simp)
    · split at h
      · cases h
        rename_i hlen
        simp only [measN, List.length_drop, hp, pRank]
        omega
      · exact absurd h (by simp)

theorem step_measN {s s' : ParserS} (h : step s = .next s') : measN s' < measN s := by
  unfold step at h
  cases hp : s.pstate <;> simp only [hp] at h
  · exact stepRL_measN hp h
  · exact stepHeaders_measN hp h
  · exact stepBody_measN hp h
  · exact absurd h (by simp)

/-- Fuel-indexed evaluation of the driving loop of HttpParser::parse
(src/http_parser.rs lines 67-119).  The fuel only serves to make the
loop structurally recursive; runFuel_congr shows any fuel above the
measure gives the same answer, and run below supplies enough. -/
def runFuel : Nat → ParserS → Except Str ParserS
  | 0, s => .ok s
  | n + 1, s =>
    if s.pstate = .done then .ok (setComplete s)
    else
      match step s with
      | .next s' => runFuel n s'
      | .stuck => .ok s
      | .error e => .error e

theorem runFuel_congr : ∀ (m n : Nat) (s : ParserS),
    measN s < m → measN s < n → runFuel m s = runFuel n s := by
  intro m
  induction m with
  | zero => intro n s hm; omega
  | succ m ih =>
    intro n s hm hn
    cases n with
    | zero => omega
    | succ n =>
      rw [runFuel, runFuel]
      split
      · rfl
      · cases h : step s with
        | next s' =>
          have hlt := step_measN h
          exact ih n s' (by omega) (by omega)
        | stuck => rfl
        | error e => rfl

/-- The driving loop of HttpParser::parse: advance as far as the buffer
allows.  Transitions into Done set request.complete at the transition
itself; re-entering the loop in Done (lines 114-117) re-asserts it,
which is what setComplete captures. -/
def run (s : ParserS) : Except Str ParserS := runFuel (measN s + 1) s

/-- The one-iteration unfolding of the parse loop. -/
theorem run_eq (s : ParserS) : run s =
    if s.pstate = .done then .ok (setComplete s)
    else
      match step s with
      | .next s' => run s'
      | .stuck => .ok s
      | .error e => .error e := by
  show runFuel (measN s + 1) s = _
  rw [runFuel]
  split
  · rfl
  · cases h : step s with
    | next s' =>
      have hlt := step_measN h
      exact runFuel_congr (measN s) (measN s' + 1) s' (by omega) (by omega)
    | stuck => rfl
    | error e => rfl

/-- HttpParser::parse (src/http_parser.rs lines 64-120): append the new
bytes to the internal buffer, then run the loop. -/
def HttpParser.parse (data : Str) (s : ParserS) : Except Str ParserS :=
  run { s with buffer := s.buffer ++ data }

/-- Feeding a sequence of byte slices one call at a time, stopping at the
first parse error (as Server::handle_read does). -/
def feedList : List Str → ParserS → Except Str ParserS
  | [], s => .ok s
  | d :: rest, s =>
    match HttpParser.parse d s with
    | .ok s' => feedList rest s'
    | .error e => .error e

deriving instance DecidableEq for Except

/-- Appending freshly read bytes to the parser buffer (the first line of
HttpParser::parse). -/
def feedBytes (v : Str) (s : ParserS) : ParserS :=
  { s with buffer := s.buffer ++ v }

/-- The effect more input should have on a non-stuck step outcome. -/
def StepRes.feed (v : Str) : StepRes → StepRes
  | .next s => .next (feedBytes v s)
  | .stuck => .stuck
  | .error e => .error e

theorem stepRL_feed {s : ParserS} (v : Str) (h : stepRL s ≠ .stuck) :
    stepRL (feedBytes v s) = (stepRL s).feed v := by
  unfold stepRL at *
  cases hf : findCrlf s.buffer with
  | none => simp only [hf] at h; exact absurd rfl h
  | some pos =>
    have hb := findCrlf_bound s.buffer pos hf
    have hf2 := findCrlf_append s.buffer v pos hf
    simp only [hf, feedBytes, hf2] at h ⊢
    rw [List.take_append_of_le_length (by omega : pos ≤ s.buffer.length),
      List.drop_append_of_le_length (by omega : pos + 2 ≤ s.buffer.length)]
    rcases splitWs (s.buffer.take pos) with _ | ⟨m, _ | ⟨u, _ | ⟨w, _ | ⟨y, ys⟩⟩⟩⟩ <;> rfl

theorem finishHeaders_feed (v : Str) (t : ParserS) :
    finishHeaders (feedBytes v t) = feedBytes v (finishHeaders t) := by
  simp only [finishHeaders, feedBytes]
  split <;> rfl

theorem stepHeaders_feed {s : ParserS} (v : Str) (h : stepHeaders s ≠ .stuck) :
    stepHeaders (feedBytes v s) = (stepHeaders s).feed v := by
  unfold stepHeaders at *
  cases hf : findCrlf s.buffer with
  | none => simp only [hf] at h; exact absurd rfl h
  | some pos =>
    have hb := findCrlf_bound s.buffer pos hf
    have hf2 := findCrlf_append s.buffer v pos hf
    cases pos with
    | zero =>
      simp only [hf, feedBytes, hf2]
      rw [List.drop_append_of_le_length (by omega : 2 ≤ s.buffer.length)]
      have hcm := finishHeaders_feed v { s with buffer := s.buffer.drop 2 }
      simp only [feedBytes] at hcm
      simp only [StepRes.feed, feedBytes]
      rw [← hcm]
    | succ pos =>
      simp only [hf, feedBytes, hf2]
      rw [List.take_append_of_le_length (by omega : pos + 1 ≤ s.buffer.length)]
      cases hidx : List.findIdx? (fun x => decide (x = ':')) (List.take (pos + 1) s.buffer) with
      | none =>
        simp only [hidx]
        rw [List.drop_append_of_le_length (by omega : pos + 1 + 2 ≤ s.buffer.length)]
        rfl
      | some cp =>
        simp only [hidx]
        rw [List.drop_append_of_le_length (by omega : pos + 1 + 2 ≤ s.buffer.length)]
        rfl

theorem stepChunk_feed {s : ParserS} (v : Str) (h : stepChunk s ≠ .stuck) :
    stepChunk (feedBytes v s) = (stepChunk s).feed v := by
  unfold stepChunk at *
  cases hc : s.chunkState with
  | size =>
    simp only [hc, feedBytes] at h ⊢
    cases hf : findCrlf s.buffer with
    | none => simp only [hf] at h; exact absurd rfl h
    | some pos =>
      have hb := findCrlf_bound s.buffer pos hf
      have hf2 := findCrlf_append s.buffer v pos hf
      simp only [hf, hf2]
      rw [List.take_append_of_le_length (by omega : pos ≤ s.buffer.length)]
      cases hr : fromStrRadix 16
          (rustTrim (List.takeWhile (fun x => decide (x ≠ ';')) (List.take pos s.buffer))) with
      | none => simp only [hr]; rfl
      | some n =>
        simp only [hr]
        by_cases hz : n = 0
        · rw [if_pos hz, if_pos hz,
            List.drop_append_of_le_length (by omega : pos + 2 ≤ s.buffer.length)]
          rfl
        · rw [if_neg hz, if_neg hz,
            List.drop_append_of_le_length (by omega : pos + 2 ≤ s.buffer.length)]
          rfl
  | dat =>
    simp only [hc, feedBytes] at h ⊢
    by_cases hlen : s.chunkSize ≤ s.buffer.length
    · rw [if_pos hlen, if_pos (show s.chunkSize ≤ (s.buffer ++ v).length by
        rw [List.length_append]; omega)]
      rw [List.take_append_of_le_length hlen, List.drop_append_of_le_length hlen]
      rfl
    · rw [if_neg hlen] at h
      exact absurd rfl h
  | trailing =>
    simp only [hc, feedBytes] at h ⊢
    by_cases hlen : 2 ≤ s.buffer.length
    · rw [if_pos hlen, if_pos (show 2 ≤ (s.buffer ++ v).length by
        rw [List.length_append]; omega)]
      rw [List.drop_append_of_le_length hlen]
      rfl
    · rw [if_neg hlen] at h
      exact absurd rfl h

theorem stepBody_feed {s : ParserS} (v : Str) (h : stepBody s ≠ .stuck) :
    stepBody (feedBytes v s) = (stepBody s).feed v := by
  unfold stepBody at *
  by_cases hch : s.isChunked
  · rw [if_pos hch] at h
    have hch2 : (feedBytes v s).isChunked = true := hch
    rw [if_pos hch2, if_pos hch]
    exact stepChunk_feed v h
  · rw [if_neg hch] at h
    have hch2 : ¬ (feedBytes v s).isChunked = true := hch
    rw [if_neg hch2, if_neg hch]
    have hclr : (feedBytes v s).contentLength = s.contentLength := rfl
    rw [hclr]
    cases hcl : s.contentLength with
    | none => simp only [hcl] at h; exact absurd rfl h
    | some cl =>
      simp only [hcl, feedBytes] at h ⊢
      by_cases hlen : cl ≤ s.buffer.length
      · rw [if_pos hlen, if_pos (show cl ≤ (s.buffer ++ v).length by
          rw [List.length_append]; omega)]
        rw [List.take_append_of_le_length hlen, List.drop_append_of_le_length hlen]
        rfl
      · rw [if_neg hlen] at h
        exact absurd rfl h

theorem step_feed {s : ParserS} (v : Str) (h : step s ≠ .stuck) :
    step (feedBytes v s) = (step s).feed v := by
  unfold step at *
  cases hp : s.pstate with
  | requestLine =>
    rw [hp] at h
    have hp2 : (feedBytes v s).pstate = PState.requestLine := hp
    rw [hp2]
    exact stepRL_feed v h
  | headers =>
    rw [hp] at h
    have hp2 : (feedBytes v s).pstate = PState.headers := hp
    rw [hp2]
    exact stepHeaders_feed v h
  | body =>
    rw [hp] at h
    have hp2 : (feedBytes v s).pstate = PState.body := hp
    rw [hp2]
    exact stepBody_feed v h
  | done =>
    rw [hp] at h
    exact absurd rfl h

theorem run_feed_ok (v : Str) (s t : ParserS) (h : run s = .ok t) :
    run (feedBytes v s) = run (feedBytes v t) := by
  by_cases hd : s.pstate = .done
  · rw [run_eq, if_pos hd] at h
    have h2 : setComplete s = t := by injection h
    subst h2
    have hd1 : (feedBytes v s).pstate = .done := hd
    have hd2 : (feedBytes v (setComplete s)).pstate = .done := hd
    rw [run_eq, if_pos hd1, run_eq, if_pos hd2]
    rfl
  · rw [run_eq, if_neg hd] at h
    cases hstep : step s with
    | next s' =>
      rw [hstep] at h
      have h' : run s' = .ok t := h
      have hrec := run_feed_ok v s' t h'
      have hd1 : ¬ (feedBytes v s).pstate = .done := hd
      have hne : step s ≠ StepRes.stuck := by rw [hstep]; simp
      rw [run_eq, if_neg hd1, step_feed v hne, hstep]
      exact hrec
    | stuck =>
      rw [hstep] at h
      have h' : (Except.ok s : Except Str ParserS) = .ok t := h
      have h2 : s = t := by injection h'
      rw [h2]
    | error e =>
      rw [hstep] at h
      exact absurd h (by simp)
termination_by measN s
decreasing_by exact step_measN hstep

theorem run_feed_err (v : Str) (s : ParserS) (e : Str) (h : run s = .error e) :
    run (feedBytes v s) = .error e := by
  by_cases hd : s.pstate = .done
  · rw [run_eq, if_pos hd] at h
    exact absurd h (by simp)
  · rw [run_eq, if_neg hd] at h
    cases hstep : step s with
    | next s' =>
      rw [hstep] at h
      have h' : run s' = .error e := h
      have hrec := run_feed_err v s' e h'
      have hd1 : ¬ (feedBytes v s).pstate = .done := hd
      have hne : step s ≠ StepRes.stuck := by rw [hstep]; simp
      rw [run_eq, if_neg hd1, step_feed v hne, hstep]
      exact hrec
    | stuck =>
      rw [hstep] at h
      exact absurd h (by simp)
    | error e2 =>
      rw [hstep] at h
      have hd1 : ¬ (feedBytes v s).pstate = .done := hd
      have hne : step s ≠ StepRes.stuck := by rw [hstep]; simp
      rw [run_eq, if_neg hd1, step_feed v hne, hstep]
      exact h
termination_by measN s
decreasing_by exact step_measN hstep

/-- Two successive parse calls are one call on the concatenation. -/
theorem parse_parse (d1 d2 : Str) (s : ParserS) :
    (match HttpParser.parse d1 s with
     | .ok t => HttpParser.parse d2 t
     | .error e => .error e) = HttpParser.parse (d1 ++ d2) s := by
  unfold HttpParser.parse
  have hfe : ({ s with buffer := s.buffer ++ (d1 ++ d2) } : ParserS)
      = feedBytes d2 { s with buffer := s.buffer ++ d1 } := by
    show ({ s with buffer := s.buffer ++ (d1 ++ d2) } : ParserS)
      = { s with buffer := (s.buffer ++ d1) ++ d2 }
    rw [List.append_assoc]
  rw [hfe]
  cases hr : run { s with buffer := s.buffer ++ d1 } with
  | ok t =>
    simp only [hr]
    exact (run_feed_ok d2 _ t hr).symm
  | error e =>
    simp only [hr]
    exact (run_feed_err d2 _ e hr).symm

/-- Feeding any nonempty list of pieces equals one call on their
concatenation (stopping at the first error either way). -/
theorem feedList_join (d : Str) (ds : List Str) (s : ParserS) :
    feedList (d :: ds) s = HttpParser.parse ((d :: ds).flatten) s := by
  induction ds generalizing d s with
  | nil =>
    have hj : (d :: ([] : List Str)).flatten = d := by simp
    rw [feedList, hj]
    cases hr : HttpParser.parse d s with
    | ok t => simp only [hr, feedList]
    | error e => simp only [hr]
  | cons d2 ds ih =>
    have hj : ((d :: d2 :: ds).flatten) = d ++ (d2 :: ds).flatten := by simp
    rw [feedList, hj, ← parse_parse d ((d2 :: ds).flatten) s]
    cases hr : HttpParser.parse d s with
    | ok t =>
      simp only [hr]
      exact ih d2 t
    | error e => simp only [hr]

/-- Decimal rendering of a number (Rust usize::to_string / format!). -/
def natToStr (n : Nat) : Str := (toString n).data

/-- An abstract read-only filesystem: path contents, none if unreadable
(std::fs::read in the Rust sources). -/
abbrev Fs := Str → Option Str

/-- HttpResponse::status_text (src/src/http_response.rs lines 26-43). -/
def statusText (code : Nat) : Str :=
  (match code with
  | 200 => "OK"
  | 201 => "Created"
  | 204 => "No Content"
  | 301 => "Moved Permanently"
  | 302 => "Found"
  | 304 => "Not Modified"
  | 400 => "Bad Request"
  | 403 => "Forbidden"
  | 404 => "Not Found"
  | 405 => "Method Not Allowed"
  | 413 => "Payload Too Large"
  | 500 => "Internal Server Error"
  | 501 => "Not Implemented"
  | _ => "Unknown").data

/-- HttpResponse (src/src/http_response.rs lines 3-8); the HashMap of
headers is the association-list model, iteration order = list order. -/
structure HttpResponse where
  status_code : Nat
  status_text : Str
  headers : List (Str × Str)
  body : Str
deriving DecidableEq, Repr

/-- HttpResponse::new (lines 11-24). -/
def HttpResponse.new (code : Nat) : HttpResponse :=
  { status_code := code, status_text := statusText code,
    headers := hInsert "Connection".data "keep-alive".data
      (hInsert "Server".data "Webserv/1.0".data []),
    body := [] }

/-- HttpResponse::set_body (lines 45-48): also sets Content-Length. -/
def HttpResponse.set_body (r : HttpResponse) (body : Str) : HttpResponse :=
  { r with
    headers := hInsert "Content-Length".data (natToStr body.length) r.headers,
    body := body }

/-- HttpResponse::add_header (lines 54-56): last write wins. -/
def HttpResponse.add_header (r : HttpResponse) (k v : Str) : HttpResponse :=
  { r with headers := hInsert k v r.headers }

/-- One serialized header line per map entry (to_bytes loop, lines 65-67). -/
def headerLines : List (Str × Str) → Str
  | [] => []
  | (k, v) :: rest => k ++ ": ".data ++ v ++ "\r\n".data ++ headerLines rest

/-- HttpResponse::to_bytes (lines 58-74). -/
def HttpResponse.to_bytes (r : HttpResponse) : Str :=
  "HTTP/1.1 ".data ++ natToStr r.status_code ++ " ".data ++ r.status_text
    ++ "\r\n".data ++ headerLines r.headers ++ "\r\n".data ++ r.body

/-- The built-in error page HTML (error_page lines 88-110; the doubled
braces of the Rust format string are literal braces in the output). -/
def defaultErrorBody (code : Nat) : Str :=
  ("<!DOCTYPE html>\n<html>\n<head>\n    <title>").data
  ++ natToStr code ++ " ".data ++ statusText code
  ++ ("</title>\n    <style>\n        body \x7b font-family: Arial, sans-serif; text-align: center; padding: 50px; \x7d\n        h1 \x7b color: #333; \x7d\n        p \x7b color: #666; \x7d\n    </style>\n</head>\n<body>\n    <h1>").data
  ++ natToStr code ++ " ".data ++ statusText code
  ++ ("</h1>\n    <p>The server encountered an error processing your request.</p>\n    <hr>\n    <small>Webserv/1.0</small>\n</body>\n</html>").data

/-- HttpResponse::error_page (lines 76-115), with the filesystem read of
the custom page path made explicit through the Fs oracle. -/
def HttpResponse.error_page (fs : Fs) (code : Nat) (custom : Option Str) : HttpResponse :=
  let r := HttpResponse.new code
  match custom with
  | some path =>
    match fs path with
    | some content =>
      (r.add_header "Content-Type".data "text/html".data).set_body content
    | none =>
      (r.add_header "Content-Type".data "text/html".data).set_body (defaultErrorBody code)
  | none =>
    (r.add_header "Content-Type".data "text/html".data).set_body (defaultErrorBody code)

/-- Route (src/src/config.rs lines 15-26). -/
structure Route where
  path : Str
  methods : List Str
  root : Option Str
  index : List Str
  autoindex : Bool
  redirect : Option (Nat × Str)
  cgi_extension : Option Str
  cgi_path : Option Str
  upload_dir : Option Str
deriving DecidableEq, Repr

/-- ServerConfig (src/src/config.rs lines 5-13); error_pages is the
HashMap<u16,String> as an association list. -/
structure ServerConfig where
  host : Str
  port : Nat
  server_names : List Str
  error_pages : List (Nat × Str)
  client_max_body_size : Nat
  routes : List Route
deriving DecidableEq, Repr

/-- error_pages.get(&code) (HashMap get on the association-list model). -/
def epGet (code : Nat) (eps : List (Nat × Str)) : Option Str :=
  (eps.find? (fun p => p.1 == code)).map (·.2)

/-- uri.split('?').next().unwrap_or(uri): the part before the query. -/
def stripQuery (uri : Str) : Str := uri.takeWhile (· ≠ '?')

/-- The loop of Server::find_route (src/src/server.rs lines 662-671),
with the running best match and best length made explicit. -/
def findRouteAux (uriPath : Str) : List Route → Option Route → Nat → Option Route
  | [], best, _ => best
  | rt :: rest, best, bestLen =>
    if rt.path.isPrefixOf uriPath ∧ bestLen < rt.path.length then
      findRouteAux uriPath rest (some rt) rt.path.length
    else
      findRouteAux uriPath rest best bestLen

/-- Server::find_route (src/src/server.rs lines 659-674). -/
def Server.find_route (uri : Str) (cfg : ServerConfig) : Option Route :=
  findRouteAux (stripQuery uri) cfg.routes none 0

/-- Route-dependent part of the method gate (server.rs lines 268-276:
the gate only fires when a route was found). -/
def methodAllowed (route : Option Route) (m : Str) : Bool :=
  match route with
  | some rt => rt.methods.contains m
  | none => true

/-- Route-dependent redirect (server.rs lines 279-285: only checked when
a route was found). -/
def routeRedirect (route : Option Route) : Option (Nat × Str) :=
  match route with
  | some rt => rt.redirect
  | none => none

/-- What the dispatcher decides for a request: either a finished response,
or the hand-off into one of the filesystem-dependent method handlers with
the route it found (Server::handle_get / handle_post / handle_delete
beyond their route = None prefix). -/
inductive Dispatch
  | respond (r : HttpResponse)
  | get (rt : Route)
  | post (rt : Route)
  | delete (rt : Route)
deriving DecidableEq, Repr

/-- The route = None prefix of Server::handle_get (server.rs lines
307-316): without a route the handler answers 404 before touching the
filesystem; with a route it continues into filesystem-dependent code. -/
def handleGetRoute (fs : Fs) (cfg : ServerConfig) (route : Option Route) : Dispatch :=
  match route with
  | none => .respond (HttpResponse.error_page fs 404 (epGet 404 cfg.error_pages))
  | some rt => .get rt

/-- The route = None prefix of Server::handle_post (lines 375-384). -/
def handlePostRoute (fs : Fs) (cfg : ServerConfig) (route : Option Route) : Dispatch :=
  match route with
  | none => .respond (HttpResponse.error_page fs 404 (epGet 404 cfg.error_pages))
  | some rt => .post rt

/-- The route = None prefix of Server::handle_delete (lines 414-423). -/
def handleDeleteRoute (fs : Fs) (cfg : ServerConfig) (route : Option Route) : Dispatch :=
  match route with
  | none => .respond (HttpResponse.error_page fs 404 (epGet 404 cfg.error_pages))
  | some rt => .delete rt

/-- Server::process_request (src/src/server.rs lines 243-300): the
ordered policy gates (body size, routing, method gate, redirect, method
dispatch). -/
def Server.process_request (fs : Fs) (req : Req) (cfg : ServerConfig) : Dispatch :=
  if cfg.client_max_body_size < req.body.length then
    .respond (HttpResponse.error_page fs 413 (epGet 413 cfg.error_pages))
  else
    let route := Server.find_route req.uri cfg
    if methodAllowed route req.method = false then
      .respond (HttpResponse.error_page fs 405 (epGet 405 cfg.error_pages))
    else
      match routeRedirect route with
      | some (code, loc) =>
        .respond ((HttpResponse.new code).add_header "Location".data loc)
      | none =>
        if req.method = "GET".data then handleGetRoute fs cfg route
        else if req.method = "POST".data then handlePostRoute fs cfg route
        else if req.method = "DELETE".data then handleDeleteRoute fs cfg route
        else .respond (HttpResponse.error_page fs 405 (epGet 405 cfg.error_pages))

/-- Rust str::lines helper: raw split at every newline. -/
def splitOnNl : Str → List Str
  | [] => [[]]
  | c :: rest =>
    if c = '\n' then [] :: splitOnNl rest
    else
      match splitOnNl rest with
      | seg :: segs => (c :: seg) :: segs
      | [] => [[c]]

/-- Rust str::lines: split on newlines, a final line ending adds no empty
line, and one trailing carriage return is stripped from each line. -/
def rustLines (s : Str) : List Str :=
  let segs :=
    if s.isEmpty then []
    else
      let sg := splitOnNl s
      if sg.getLast? = some [] then sg.dropLast else sg
  segs.map (fun l => if l.getLast? = some '\r' then l.dropLast else l)

/-- The header-collecting loop of CgiHandler::parse_cgi_output
(src/cgi.rs lines 120-126 and 133-139): split each line on the first
':', name trimmed and lowercased, value trimmed, lines without ':'
ignored. -/
def cgiHeadersOf (lines : List Str) : List (Str × Str) :=
  lines.foldl (fun acc line =>
    match line.findIdx? (· = ':') with
    | some cp =>
      hInsert (lowerStr (rustTrim (line.take cp))) (rustTrim (line.drop (cp + 1))) acc
    | none => acc) []

/-- CgiHandler::parse_cgi_output (src/cgi.rs lines 110-146).  The only
error path of the Rust function is invalid UTF-8 in the child output,
which the Char-level model cannot represent (see header comment), so the
result is total here. -/
def parseCgiOutput (out : Str) : (List (Str × Str)) × Str :=
  match findSub "\r\n\r\n".data out with
  | some pos => (cgiHeadersOf (rustLines (out.take pos)), out.drop (pos + 4))
  | none =>
    match findSub "\n\n".data out with
    | some pos => (cgiHeadersOf (rustLines (out.take pos)), out.drop (pos + 2))
    | none => ([], out)

/-- The response construction from parsed CGI output in
Server::execute_cgi (src/src/server.rs lines 527-545): Status
pseudo-header decides the code (first whitespace token parsed as u16,
default 200), remaining headers are copied, Content-Type defaults, the
body is installed with set_body. -/
def cgiResponseOf (cgiHeaders : List (Str × Str)) (body : Str) : HttpResponse :=
  let status_code :=
    (((hGet "status".data cgiHeaders).bind (fun s => (splitWs s).head?)).bind
      parseU16).getD 200
  let r := HttpResponse.new status_code
  let r := cgiHeaders.foldl
    (fun r p => if p.1 ≠ "status".data then r.add_header p.1 p.2 else r) r
  let r :=
    if r.headers.any (fun p => p.1 == "Content-Type".data) then r
    else r.add_header "Content-Type".data "text/html".data
  r.set_body body

/-- session.rs create_set_cookie (lines 95-103). -/
def create_set_cookie (name value : Str) (maxAge : Option Nat) : Str :=
  name ++ "=".data ++ value ++ "; Path=/; HttpOnly".data
    ++ (match maxAge with
        | some age => "; Max-Age=".data ++ natToStr age
        | none => [])

/-- ClientState (src/src/server.rs lines 17-20). -/
inductive ClientState
  | reading
  | writing (response : Str) (written : Nat)
deriving DecidableEq, Repr

/-- The parser-relevant part of a Client (src/src/server.rs lines 22-29):
the connection state and the parser with its partially built request.
The stream, timestamps and the config snapshot are carried by the
surrounding event loop model. -/
structure Client where
  cstate : ClientState
  parser : ParserS
deriving DecidableEq, Repr

/-- A freshly accepted client (accept_connection lines 140-147). -/
def Client.init : Client := { cstate := .reading, parser := ParserS.init }

/-- Server::send_response (src/src/server.rs lines 612-657): possibly add
the session Set-Cookie header (the created session id is an input, since
ids are generated from time and process randomness), serialize, and move
the client to the Writing state. -/
def sendResponse (newSession : Option Str) (cl : Client) (resp : HttpResponse) : Client :=
  let resp :=
    match newSession with
    | some sid =>
      resp.add_header "Set-Cookie".data (create_set_cookie "sessionid".data sid (some 3600))
    | none => resp
  { cl with cstate := .writing resp.to_bytes 0 }

/-- What the readiness loop observes when a client socket is readable. -/
inductive ReadEvent
  | closed
  | bytes (d : Str)
  | wouldBlock
deriving DecidableEq, Repr

/-- What the readiness loop observes when a client socket is writable. -/
inductive WriteEvent
  | wrote (n : Nat)
  | wouldBlock
deriving DecidableEq, Repr

/-- Result of one handle_read / handle_write call as the run loop sees
it: an Err return makes the loop close the client (server.rs lines
101-110), otherwise the client stays with a new state; complete marks
that a full request is now in hand and process_request runs next. -/
inductive IoOutcome
  | close
  | keep (cl : Client)
  | complete (cl : Client)
deriving DecidableEq, Repr

/-- Server::handle_read (src/src/server.rs lines 178-209).  On a parser
error the server queues the built-in 400 page (error_page(400, None))
through send_response and returns Ok, so the loop keeps the connection.
The Rust parser object is also mutated on the error path, but that state
can never be observed again: the connection is switched to write
interest and the parser is replaced before the next read, so the model
keeps the pre-call parser there. -/
def handleRead (fs : Fs) (newSession : Option Str) (cl : Client) (ev : ReadEvent) :
    IoOutcome :=
  match ev with
  | .closed => .close
  | .wouldBlock => .keep cl
  | .bytes d =>
    match HttpParser.parse d cl.parser with
    | .error _ => .keep (sendResponse newSession cl (HttpResponse.error_page fs 400 none))
    | .ok p =>
      if p.req.complete then .complete { cl with parser := p }
      else .keep { cl with parser := p }

/-- Server::handle_write (src/src/server.rs lines 211-241): write-zero
closes; once the whole response is written the parser and request are
reset and the client returns to Reading. -/
def handleWrite (cl : Client) (ev : WriteEvent) : IoOutcome :=
  match cl.cstate with
  | .writing resp written =>
    match ev with
    | .wrote 0 => .close
    | .wrote n =>
      if resp.length ≤ written + n then
        .keep { cstate := .reading, parser := ParserS.init }
      else
        .keep { cl with cstate := .writing resp (written + n) }
    | .wouldBlock => .keep cl
  | .reading => .keep cl

set_option maxRecDepth 100000

/-- Concrete fixtures for witnesses and counterexamples. -/
def fsEmpty : Fs := fun _ => none

/-- A GET-only route for /api. -/
def routeApi : Route :=
  { path := "/api".data, methods := ["GET".data], root := none,
    index := [], autoindex := false, redirect := none, cgi_extension := none,
    cgi_path := none, upload_dir := none }

/-- A route whose path is the empty string. -/
def routeEmptyPath : Route := { routeApi with path := [] }

/-- A route carrying an unconditional redirect. -/
def routeRedir : Route :=
  { routeApi with path := "/old".data, redirect := some (301, "/new".data) }

/-- A small server configuration with one /api route and a 10-byte body cap. -/
def cfgApi : ServerConfig :=
  { host := "127.0.0.1".data, port := 8080, server_names := [],
    error_pages := [], client_max_body_size := 10, routes := [routeApi] }

/-- A complete parsed PUT request for an unrouted URI. -/
def reqPut : Req :=
  { method := "PUT".data, uri := "/x".data, version := "HTTP/1.1".data,
    headers := [], body := [], complete := true }

/-- C2: a request whose body exceeds client_max_body_size is answered with
the 413 error page built from the configured custom page entry, and the
decision depends neither on the configured routes nor on the method. -/
theorem dispatch_body_size_gate (fs : Fs) (req : Req) (cfg : ServerConfig)
    (h : cfg.client_max_body_size < req.body.length) :
    Server.process_request fs req cfg
      = .respond (HttpResponse.error_page fs 413 (epGet 413 cfg.error_pages))
    ∧ (∀ rts : List Route, Server.process_request fs req { cfg with routes := rts }
      = .respond (HttpResponse.error_page fs 413 (epGet 413 cfg.error_pages)))
    ∧ (∀ m : Str, Server.process_request fs { req with method := m } cfg
      = .respond (HttpResponse.error_page fs 413 (epGet 413 cfg.error_pages))) := by
  refine ⟨?_, fun rts => ?_, fun m => ?_⟩ <;>
    · unfold Server.process_request
      rw [if_pos h]

/-- C2 witness: an 11-byte body against a 10-byte limit yields the 413
page, whatever the method, with no route consulted. -/
theorem dispatch_body_size_gate_witness :
    Server.process_request fsEmpty { reqPut with body := "0123456789A".data } cfgApi
      = .respond (HttpResponse.error_page fsEmpty 413 (epGet 413 cfgApi.error_pages)) :=
  (dispatch_body_size_gate fsEmpty { reqPut with body := "0123456789A".data } cfgApi
    (by decide)).1

/-- C4 counterexample: a PUT to an unrouted URI is answered 405, not 404:
the catch-all arm of the method dispatch fires before any handler can
report the missing route. -/
theorem unknown_method_unrouted_cex :
    Server.find_route reqPut.uri cfgApi = none
    ∧ Server.process_request fsEmpty reqPut cfgApi
        = .respond (HttpResponse.error_page fsEmpty 405 (epGet 405 cfgApi.error_pages))
    ∧ (HttpResponse.error_page fsEmpty 405 (epGet 405 cfgApi.error_pages)).status_code = 405 := by
  refine ⟨by decide, by decide, by decide⟩

/-- C4 amended: on an unrouted URI the dispatcher answers 404 only for
the methods GET, POST and DELETE; any other method falls into the
catch-all 405 arm even though no route was found.  The per-route method
gate itself indeed only applies once a route has been found. -/
theorem dispatch_unrouted_404_405 (fs : Fs) (req : Req) (cfg : ServerConfig)
    (hroute : Server.find_route req.uri cfg = none)
    (hsize : req.body.length ≤ cfg.client_max_body_size) :
    ((req.method = "GET".data ∨ req.method = "POST".data ∨ req.method = "DELETE".data) →
      Server.process_request fs req cfg
        = .respond (HttpResponse.error_page fs 404 (epGet 404 cfg.error_pages)))
    ∧ ((req.method ≠ "GET".data ∧ req.method ≠ "POST".data ∧ req.method ≠ "DELETE".data) →
      Server.process_request fs req cfg
        = .respond (HttpResponse.error_page fs 405 (epGet 405 cfg.error_pages))) := by
  have hns : ¬ cfg.client_max_body_size < req.body.length := by omega
  constructor
  · rintro (hm | hm | hm) <;>
      simp [Server.process_request, hns, hroute, methodAllowed, routeRedirect, hm,
        handleGetRoute, handlePostRoute, handleDeleteRoute]
  · rintro ⟨hg, hp, hd⟩
    simp [Server.process_request, hns, hroute, methodAllowed, routeRedirect, hg, hp, hd]

/-- C4 witness: GET on the same unrouted URI does get the 404 page. -/
theorem dispatch_unrouted_404_405_witness :
    Server.process_request fsEmpty { reqPut with method := "GET".data } cfgApi
      = .respond (HttpResponse.error_page fsEmpty 404 (epGet 404 cfgApi.error_pages)) :=
  (dispatch_unrouted_404_405 fsEmpty { reqPut with method := "GET".data } cfgApi
    (by decide) (by decide)).1 (Or.inl (by decide))

theorem findRouteAux_some_ne_none (up : Str) : ∀ (rts : List Route) (b : Route) (bl : Nat),
    findRouteAux up rts (some b) bl ≠ none := by
  intro rts
  induction rts with
  | nil => intro b bl; simp [findRouteAux]
  | cons r rest ih =>
    intro b bl
    unfold findRouteAux
    split
    · exact ih r _
    · exact ih b bl

theorem findRouteAux_none_iff (up : Str) : ∀ (rts : List Route) (best : Option Route) (bl : Nat),
    findRouteAux up rts best bl = none ↔
      best = none ∧ ∀ r ∈ rts, ¬(r.path.isPrefixOf up ∧ bl < r.path.length) := by
  intro rts
  induction rts with
  | nil => intro best bl; simp [findRouteAux]
  | cons r rest ih =>
    intro best bl
    unfold findRouteAux
    split
    · rename_i hcond
      constructor
      · intro h
        exact absurd h (findRouteAux_some_ne_none up rest r _)
      · rintro ⟨hb, hall⟩
        exact absurd hcond (hall r (by simp))
    · rename_i hcond
      rw [ih best bl]
      constructor
      · rintro ⟨hb, hall⟩
        refine ⟨hb, ?_⟩
        intro x hx
        rcases List.mem_cons.mp hx with rfl | hx
        · exact hcond
        · exact hall x hx
      · rintro ⟨hb, hall⟩
        exact ⟨hb, fun x hx => hall x (List.mem_cons_of_mem r hx)⟩

theorem findRouteAux_some_spec (up : Str) :
    ∀ (rts : List Route) (best : Option Route) (bl : Nat) (rt : Route),
    findRouteAux up rts best bl = some rt →
    (best = some rt ∧ ∀ r ∈ rts, r.path.isPrefixOf up → r.path.length ≤ bl) ∨
    (∃ l1 l2, rts = l1 ++ rt :: l2 ∧ (rt.path.isPrefixOf up ∧ bl < rt.path.length) ∧
      (∀ r ∈ l1, r.path.isPrefixOf up → r.path.length < rt.path.length) ∧
      (∀ r ∈ l2, r.path.isPrefixOf up → r.path.length ≤ rt.path.length)) := by
  intro rts
  induction rts with
  | nil =>
    intro best bl rt h
    left
    simp only [findRouteAux] at h
    exact ⟨h, by simp⟩
  | cons r rest ih =>
    intro best bl rt h
    unfold findRouteAux at h
    split at h
    · rename_i hcond
      rcases ih (some r) r.path.length rt h with ⟨heq, hall⟩ | ⟨l1, l2, hsplit, hc, hl1, hl2⟩
      · have heq2 : r = rt := by injection heq
        subst heq2
        right
        exact ⟨[], rest, by simp, hcond, by simp, hall⟩
      · right
        refine ⟨r :: l1, l2, by rw [hsplit]; simp, ⟨hc.1, ?_⟩, ?_, hl2⟩
        · have := hcond.2
          have := hc.2
          omega
        · intro x hx hpre
          rcases List.mem_cons.mp hx with rfl | hx
          · exact hc.2
          · exact hl1 x hx hpre
    · rename_i hcond
      rcases ih best bl rt h with ⟨heq, hall⟩ | ⟨l1, l2, hsplit, hc, hl1, hl2⟩
      · left
        refine ⟨heq, ?_⟩
        intro x hx hpre
        rcases List.mem_cons.mp hx with rfl | hx
        · by_contra hlt
          exact hcond ⟨hpre, by omega⟩
        · exact hall x hx hpre
      · right
        refine ⟨r :: l1, l2, by rw [hsplit]; simp, hc, ?_, hl2⟩
        intro x hx hpre
        rcases List.mem_cons.mp hx with rfl | hx
        · have h1 : ¬ bl < x.path.length := fun hlt => hcond ⟨hpre, hlt⟩
          have h2 := hc.2
          omega
        · exact hl1 x hx hpre

/-- C3 counterexample: a route with the empty path is a prefix of every
URI path yet find_route never returns it — routing with only that route
configured yields None, refuting the claimed "None exactly when no
route's path is a prefix". -/
theorem find_route_empty_path_cex :
    Server.find_route "/x".data { cfgApi with routes := [routeEmptyPath] } = none
    ∧ routeEmptyPath.path <+: stripQuery "/x".data
    ∧ routeEmptyPath ∈ ({ cfgApi with routes := [routeEmptyPath] } : ServerConfig).routes :=
  ⟨by decide, by decide, by decide⟩

/-- C3 amended: after stripping the query string, find_route returns the
first-declared route among those with the longest non-empty path that is
a prefix of the URI path, and returns None exactly when no route has a
non-empty path that is such a prefix. -/
theorem find_route_longest_nonempty (uri : Str) (cfg : ServerConfig) :
    (Server.find_route uri cfg = none →
      ∀ rt ∈ cfg.routes, rt.path = [] ∨ ¬ rt.path <+: stripQuery uri)
    ∧ ((∃ rt ∈ cfg.routes, rt.path ≠ [] ∧ rt.path <+: stripQuery uri) →
      Server.find_route uri cfg ≠ none)
    ∧ (∀ rt, Server.find_route uri cfg = some rt →
      rt.path ≠ [] ∧ rt.path <+: stripQuery uri ∧
      ∃ l1 l2, cfg.routes = l1 ++ rt :: l2 ∧
        (∀ r ∈ l1, r.path <+: stripQuery uri → r.path.length < rt.path.length) ∧
        (∀ r ∈ l2, r.path <+: stripQuery uri → r.path.length ≤ rt.path.length)) := by
  refine ⟨?_, ?_, ?_⟩
  · intro h rt hmem
    have hno := ((findRouteAux_none_iff (stripQuery uri) cfg.routes none 0).mp h).2 rt hmem
    by_cases hp : rt.path <+: stripQuery uri
    · left
      by_contra hne
      apply hno
      refine ⟨List.isPrefixOf_iff_prefix.mpr hp, ?_⟩
      have : rt.path.length ≠ 0 := fun h0 => hne (List.length_eq_zero.mp h0)
      omega
    · right
      exact hp
  · rintro ⟨rt, hmem, hne, hpre⟩ h
    apply ((findRouteAux_none_iff (stripQuery uri) cfg.routes none 0).mp h).2 rt hmem
    refine ⟨List.isPrefixOf_iff_prefix.mpr hpre, ?_⟩
    have : rt.path.length ≠ 0 := fun h0 => hne (List.length_eq_zero.mp h0)
    omega
  · intro rt h
    rcases findRouteAux_some_spec (stripQuery uri) cfg.routes none 0 rt h with
      ⟨heq, _⟩ | ⟨l1, l2, hsplit, hc, hl1, hl2⟩
    · exact absurd heq (by simp)
    · refine ⟨?_, List.isPrefixOf_iff_prefix.mp hc.1, l1, l2, hsplit, ?_, ?_⟩
      · intro hnil
        have := hc.2
        rw [hnil] at this
        simp at this
      · intro r hr hp
        exact hl1 r hr ( List.isPrefixOf_iff_prefix.mpr hp)
      · intro r hr hp
        exact hl2 r hr ( List.isPrefixOf_iff_prefix.mpr hp)

/-- C3 witness: on GET /api/z?q=1 against the one-route configuration the
returned route is /api, which is indeed a non-empty prefix of the
query-stripped path. -/
theorem find_route_longest_nonempty_witness :
    routeApi.path ≠ [] ∧ routeApi.path <+: stripQuery "/api/z?q=1".data ∧
    ∃ l1 l2, cfgApi.routes = l1 ++ routeApi :: l2 ∧
      (∀ r ∈ l1, r.path <+: stripQuery "/api/z?q=1".data → r.path.length < routeApi.path.length) ∧
      (∀ r ∈ l2, r.path <+: stripQuery "/api/z?q=1".data → r.path.length ≤ routeApi.path.length) :=
  (find_route_longest_nonempty "/api/z?q=1".data cfgApi).2.2 routeApi (by decide)

/-- C1: feeding the pieces of any split of a byte stream one call at a
time leaves the parser (and the request it built: method, uri, version,
headers, body, complete flag) in exactly the state of one call carrying
all the bytes, errors included. -/
theorem parse_piecewise_eq_oneshot (piece : Str) (pieces : List Str) :
    feedList (piece :: pieces) ParserS.init
      = HttpParser.parse ((piece :: pieces).flatten) ParserS.init :=
  feedList_join piece pieces ParserS.init

/-- C10: with a content-length header whose value does not parse as a
decimal integer and no chunked transfer-encoding, finishing the header
section raises no error: the request is complete with its body untouched
and the bytes after the blank line stay in the parser buffer. -/
theorem bad_content_length_completes (s : ParserS) (rest v : Str)
    (hp : s.pstate = .headers)
    (hbuf : s.buffer = '\r' :: '\n' :: rest)
    (hcl : hGet "content-length".data s.req.headers = some v)
    (hparse : fromStrRadix 10 v = none)
    (hte : hGet "transfer-encoding".data s.req.headers = none)
    (hch : s.isChunked = false) :
    run s = .ok { s with
      pstate := .done, buffer := rest, headersComplete := true,
      contentLength := none,
      req := { s.req with complete := true } } := by
  have hf : findCrlf s.buffer = some 0 := by rw [hbuf]; simp [findCrlf]
  have hdrop : s.buffer.drop 2 = rest := by rw [hbuf]; rfl
  have hstep : step s = .next (finishHeaders { s with buffer := rest }) := by
    unfold step stepHeaders
    simp only [hp, hf, hdrop]
  have hfh : finishHeaders { s with buffer := rest }
      = { s with
          pstate := .done, buffer := rest, headersComplete := true,
          contentLength := none,
          req := { s.req with complete := true } } := by
    unfold finishHeaders
    simp [hcl, hparse, hte, hch]
  have hnd : ¬ s.pstate = .done := by rw [hp]; simp
  rw [run_eq, if_neg hnd, hstep]
  simp only [hfh]
  rw [run_eq, if_pos rfl]
  rfl

/-- The header-phase state used to witness C10: GET / HTTP/1.1 with
content-length: abc recorded, the blank line and XTRA still buffered. -/
def c10state : ParserS :=
  { pstate := .headers, buffer := "\r\nXTRA".data, headersComplete := false,
    contentLength := none, isChunked := false, chunkSize := 0, chunkState := .size,
    req := { method := "GET".data, uri := "/".data, version := "HTTP/1.1".data,
             headers := [("content-length".data, "abc".data)], body := [],
             complete := false } }

/-- C10 witness: that state completes with empty body and XTRA retained,
and a one-shot parse of the full request bytes ends in the same state. -/
theorem bad_content_length_completes_witness :
    run c10state = .ok { c10state with
      pstate := .done, buffer := "XTRA".data, headersComplete := true,
      contentLength := none,
      req := { c10state.req with complete := true } }
    ∧ HttpParser.parse "GET / HTTP/1.1\r\ncontent-length: abc\r\n\r\nXTRA".data ParserS.init
      = .ok { c10state with
          pstate := .done, buffer := "XTRA".data, headersComplete := true,
          contentLength := none,
          req := { c10state.req with complete := true } } :=
  ⟨bad_content_length_completes c10state "XTRA".data "abc".data rfl rfl (by decide)
    (by decide) (by decide) rfl, by decide⟩

theorem findCrlf_no_cr : ∀ (u rest : Str), '\r' ∉ u →
    findCrlf (u ++ '\r' :: '\n' :: rest) = some u.length
  | [], rest => by
    intro h
    simp [findCrlf]
  | [c], rest => by
    intro h
    have hc : c ≠ '\r' := fun hx => h (by simp [hx])
    simp [findCrlf, hc]
  | c :: c2 :: u, rest => by
    intro h
    have hc : c ≠ '\r' := fun hx => h (by simp [hx])
    have h2 : '\r' ∉ c2 :: u := fun hx => h (List.mem_cons_of_mem c hx)
    have ih := findCrlf_no_cr (c2 :: u) rest h2
    simp only [List.cons_append] at ih ⊢
    rw [findCrlf, if_neg (by intro hx; exact hc hx.1)]
    rw [ih]
    simp

theorem takeWhile_ne_all (c : Char) : ∀ (tok : Str), c ∉ tok →
    tok.takeWhile (fun x => decide (x ≠ c)) = tok
  | [] => fun _ => rfl
  | t :: tok => by
    intro h
    have ht : t ≠ c := fun hx => h (by simp [hx])
    have h2 : c ∉ tok := fun hx => h (List.mem_cons_of_mem t hx)
    rw [List.takeWhile_cons, if_pos (by simp [ht]), takeWhile_ne_all c tok h2]

theorem takeWhile_ne_append (c : Char) (tok ext : Str) (h : c ∉ tok) :
    (tok ++ c :: ext).takeWhile (fun x => decide (x ≠ c)) = tok := by
  induction tok with
  | nil =>
    rw [List.nil_append, List.takeWhile_cons, if_neg (by simp)]
  | cons t tok ih =>
    have ht : t ≠ c := fun hx => h (by simp [hx])
    have h2 : c ∉ tok := fun hx => h (List.mem_cons_of_mem t hx)
    rw [List.cons_append, List.takeWhile_cons, if_pos (by simp [ht]),
      ih h2]

/-- C6 counterexample: a request whose only header line has no colon is
accepted without error: the parse result is Ok, the request is complete
and the line is silently dropped (no MalformedHeader failure exists). -/
theorem header_no_colon_cex :
    HttpParser.parse "GET / HTTP/1.1\r\nXHOSTx\r\n\r\n".data ParserS.init
      = .ok { pstate := .done, buffer := [], headersComplete := true,
              contentLength := none, isChunked := false, chunkSize := 0,
              chunkState := .size,
              req := { method := "GET".data, uri := "/".data, version := "HTTP/1.1".data,
                       headers := [], body := [], complete := true } } := by
  decide

/-- C6 amended: a non-empty header line without ':' is skipped silently:
the parser consumes it, records nothing, raises no error and stays in
the header state. -/
theorem header_no_colon_skipped (s : ParserS) (line rest : Str)
    (hp : s.pstate = .headers)
    (hbuf : s.buffer = line ++ '\r' :: '\n' :: rest)
    (hne : line ≠ []) (hnc : ':' ∉ line) (hnr : '\r' ∉ line) :
    step s = .next { s with buffer := rest } := by
  obtain ⟨c, line', rfl⟩ := List.exists_cons_of_ne_nil hne
  have hf : findCrlf s.buffer = some (line'.length + 1) := by
    rw [hbuf]
    have := findCrlf_no_cr (c :: line') rest hnr
    simpa using this
  have htake : s.buffer.take (line'.length + 1) = c :: line' := by
    rw [hbuf, ← List.length_cons c line']
    exact List.take_left _ _
  have hdrop : s.buffer.drop (line'.length + 1 + 2) = rest := by
    rw [hbuf]
    have h3 : line'.length + 1 + 2 = (c :: line').length + 2 := by simp
    rw [h3, ← List.drop_drop, List.drop_left]
    rfl
  have hidx : (s.buffer.take (line'.length + 1)).findIdx? (fun x => decide (x = ':'))
      = none := by
    rw [htake, List.findIdx?_eq_none_iff]
    intro x hx
    simp only [decide_eq_false_iff_not]
    intro hxc
    exact hnc (hxc ▸ hx)
  unfold step stepHeaders
  simp only [hp, hf, hidx, hdrop]

/-- C6 witness: the concrete header state holding the colon-free line
XHOSTx is consumed with the header map untouched. -/
theorem header_no_colon_skipped_witness :
    step { c10state with buffer := "XHOSTx\r\n\r\n".data }
      = .next { c10state with buffer := "\r\n".data } :=
  header_no_colon_skipped { c10state with buffer := "XHOSTx\r\n\r\n".data }
    "XHOSTx".data "\r\n".data rfl rfl (by decide) (by decide) (by decide)

/-- C5: decoding the chunked body 5/hello, 6/ world, 0.  First conjunct:
the complete concrete request yields exactly the 11-byte body
hello world (the final CRLF after the zero-size line is not consumed).
Second conjunct: on a size line, everything from the first ';' on (chunk
extensions) is discarded: the step is the one of the same state with the
extension deleted, the size being the hexadecimal value of the token
before the ';'.  Third conjunct: a size-0 line ends the body, completing
the request without touching the accumulated body. -/
theorem chunked_body_decoding :
    (HttpParser.parse
        "POST /x HTTP/1.1\r\nTransfer-Encoding: chunked\r\n\r\n5\r\nhello\r\n6\r\n world\r\n0\r\n\r\n".data
        ParserS.init
      = .ok { pstate := .done, buffer := "\r\n".data, headersComplete := true,
              contentLength := none, isChunked := true, chunkSize := 0,
              chunkState := .size,
              req := { method := "POST".data, uri := "/x".data,
                       version := "HTTP/1.1".data,
                       headers := [("transfer-encoding".data, "chunked".data)],
                       body := "hello world".data, complete := true } })
    ∧ (∀ (s : ParserS) (tok ext rest : Str), s.pstate = .body → s.isChunked = true →
        s.chunkState = .size → ';' ∉ tok → '\r' ∉ tok → '\r' ∉ ext →
        s.buffer = tok ++ ';' :: (ext ++ '\r' :: '\n' :: rest) →
        step s = step { s with buffer := tok ++ '\r' :: '\n' :: rest })
    ∧ (∀ (s : ParserS) (rest : Str), s.pstate = .body → s.isChunked = true →
        s.chunkState = .size → s.buffer = '0' :: '\r' :: '\n' :: rest →
        step s = .next { s with
          buffer := rest, chunkSize := 0, pstate := .done,
          req := { s.req with complete := true } }) := by
  refine ⟨by decide, ?_, ?_⟩
  · intro s tok ext rest hp hch hcs hsemi hcr1 hcr2 hbuf
    have hu : '\r' ∉ (tok ++ ';' :: ext) := by
      intro hx
      rcases List.mem_append.mp hx with hx | hx
      · exact hcr1 hx
      · rcases List.mem_cons.mp hx with hx | hx
        · exact absurd hx (by decide)
        · exact hcr2 hx
    have hassoc : s.buffer = (tok ++ ';' :: ext) ++ '\r' :: '\n' :: rest := by
      rw [hbuf]; simp
    have hf1 : findCrlf s.buffer = some ((tok ++ ';' :: ext).length) := by
      rw [hassoc]; exact findCrlf_no_cr _ rest hu
    have hf2 : findCrlf (tok ++ '\r' :: '\n' :: rest) = some tok.length :=
      findCrlf_no_cr tok rest hcr1
    have htk1 : s.buffer.take ((tok ++ ';' :: ext).length) = tok ++ ';' :: ext := by
      rw [hassoc]; exact List.take_left _ _
    have htk2 : (tok ++ '\r' :: '\n' :: rest).take tok.length = tok :=
      List.take_left _ _
    have hdr1 : s.buffer.drop ((tok ++ ';' :: ext).length + 2) = rest := by
      rw [hassoc, ← List.drop_drop, List.drop_left]
      rfl
    have hdr2 : (tok ++ '\r' :: '\n' :: rest).drop (tok.length + 2) = rest := by
      rw [← List.drop_drop, List.drop_left]
      rfl
    have htw1 : (tok ++ ';' :: ext).takeWhile (fun x => decide (x ≠ ';')) = tok :=
      takeWhile_ne_append ';' tok ext hsemi
    have htw2 : tok.takeWhile (fun x => decide (x ≠ ';')) = tok :=
      takeWhile_ne_all ';' tok hsemi
    have hstep1 : step s = stepChunk s := by simp [step, stepBody, hp, hch]
    have hstep2 : step { s with buffer := tok ++ '\r' :: '\n' :: rest }
        = stepChunk { s with buffer := tok ++ '\r' :: '\n' :: rest } := by
      simp [step, stepBody, hp, hch]
    rw [hstep1, hstep2]
    unfold stepChunk
    simp only [hcs, hf1, hf2, htk1, htk2, htw1, htw2, hdr1, hdr2]
  · intro s rest hp hch hcs hbuf
    have hstep : step s = stepChunk s := by simp [step, stepBody, hp, hch]
    rw [hstep]
    unfold stepChunk
    simp only [hcs, hbuf]
    rfl

/-- The size-state used to witness C5: a chunked parser looking at a
size line 5;foo=bar followed by the 5-byte chunk hello. -/
def c5state : ParserS :=
  { pstate := .body, buffer := "5;foo=bar\r\nhello\r\n0\r\n\r\n".data,
    headersComplete := true, contentLength := none, isChunked := true,
    chunkSize := 0, chunkState := .size,
    req := { method := "POST".data, uri := "/x".data, version := "HTTP/1.1".data,
             headers := [("transfer-encoding".data, "chunked".data)], body := [],
             complete := false } }

/-- C5 witness: the chunk extension ;foo=bar is discarded (the step
equals the one without it), and a zero-size line completes the request. -/
theorem chunked_body_decoding_witness :
    step c5state = step { c5state with buffer := "5\r\nhello\r\n0\r\n\r\n".data }
    ∧ step { c5state with buffer := "0\r\n\r\n".data }
      = .next { c5state with
          buffer := "\r\n".data, chunkSize := 0, pstate := .done,
          req := { c5state.req with complete := true } } :=
  ⟨chunked_body_decoding.2.1 c5state "5".data "foo=bar".data "hello\r\n0\r\n\r\n".data
      rfl rfl rfl (by decide) (by decide) (by decide) rfl,
   chunked_body_decoding.2.2 { c5state with buffer := "0\r\n\r\n".data } "\r\n".data
      rfl rfl rfl rfl⟩

/-- Every serialized response starts with its status line. -/
theorem to_bytes_status_line (r : HttpResponse) :
    ("HTTP/1.1 ".data ++ natToStr r.status_code ++ " ".data ++ r.status_text
      ++ "\r\n".data) <+: r.to_bytes :=
  ⟨headerLines r.headers ++ "\r\n".data ++ r.body, by simp [HttpResponse.to_bytes]⟩

/-- error_page keeps the requested status code and text. -/
theorem error_page_status (fs : Fs) (c : Nat) (cu : Option Str) :
    (HttpResponse.error_page fs c cu).status_code = c
    ∧ (HttpResponse.error_page fs c cu).status_text = statusText c := by
  cases cu with
  | none => exact ⟨rfl, rfl⟩
  | some p =>
    cases hfp : fs p <;>
      simp [HttpResponse.error_page, HttpResponse.new, HttpResponse.add_header,
        HttpResponse.set_body, hfp]

/-- C7 counterexample: on malformed bytes (BAD followed by CRLF fails the
request line) handle_read does NOT close the connection: it returns Ok
with the built-in 400 page queued, and once that response is fully
written the client is back in Reading state with a fresh parser, ready
to serve further requests. -/
theorem parse_error_keeps_connection_cex :
    handleRead fsEmpty none Client.init (.bytes "BAD\r\n".data) ≠ .close
    ∧ handleRead fsEmpty none Client.init (.bytes "BAD\r\n".data)
      = .keep { cstate := .writing (HttpResponse.error_page fsEmpty 400 none).to_bytes 0,
                parser := ParserS.init }
    ∧ handleWrite { cstate := .writing (HttpResponse.error_page fsEmpty 400 none).to_bytes 0,
                    parser := ParserS.init }
        (.wrote (HttpResponse.error_page fsEmpty 400 none).to_bytes.length)
      = .keep Client.init :=
  ⟨by decide, by decide, by decide⟩

/-- C7 amended: when parse fails, the server queues the built-in 400
page (the configured custom 400 page is not consulted: the call passes
None) and keeps the connection: the client enters Writing with a
response whose status line is HTTP/1.1 400 Bad Request, and as soon as
the response is fully written the parser and request are reset and the
connection reads further requests. -/
theorem parse_error_400_keepalive (fs : Fs) (sid : Option Str) (cl : Client)
    (d e : Str) (herr : HttpParser.parse d cl.parser = .error e) :
    handleRead fs sid cl (.bytes d)
      = .keep (sendResponse sid cl (HttpResponse.error_page fs 400 none))
    ∧ (∃ rb, (sendResponse sid cl (HttpResponse.error_page fs 400 none)).cstate
        = .writing rb 0 ∧ "HTTP/1.1 400 Bad Request\r\n".data <+: rb)
    ∧ (∀ (resp : Str) (w n : Nat) (p : ParserS), n ≠ 0 → resp.length ≤ w + n →
        handleWrite { cstate := .writing resp w, parser := p } (.wrote n)
          = .keep { cstate := .reading, parser := ParserS.init }) := by
  refine ⟨?_, ?_, ?_⟩
  · unfold handleRead
    simp only [herr]
  · have h3 : "HTTP/1.1 400 Bad Request\r\n".data
        = "HTTP/1.1 ".data ++ natToStr 400 ++ " ".data ++ statusText 400
          ++ "\r\n".data := by decide
    cases sid with
    | none =>
      refine ⟨(HttpResponse.error_page fs 400 none).to_bytes, rfl, ?_⟩
      have h1 := to_bytes_status_line (HttpResponse.error_page fs 400 none)
      have h2 := error_page_status fs 400 none
      rw [h2.1, h2.2] at h1
      rw [h3]
      exact h1
    | some s =>
      refine ⟨((HttpResponse.error_page fs 400 none).add_header "Set-Cookie".data
        (create_set_cookie "sessionid".data s (some 3600))).to_bytes, rfl, ?_⟩
      have h1 := to_bytes_status_line ((HttpResponse.error_page fs 400 none).add_header
        "Set-Cookie".data (create_set_cookie "sessionid".data s (some 3600)))
      have h2 := error_page_status fs 400 none
      have hsc : ((HttpResponse.error_page fs 400 none).add_header "Set-Cookie".data
          (create_set_cookie "sessionid".data s (some 3600))).status_code
          = (HttpResponse.error_page fs 400 none).status_code := rfl
      have hst : ((HttpResponse.error_page fs 400 none).add_header "Set-Cookie".data
          (create_set_cookie "sessionid".data s (some 3600))).status_text
          = (HttpResponse.error_page fs 400 none).status_text := rfl
      rw [hsc, hst, h2.1, h2.2] at h1
      rw [h3]
      exact h1
  · intro resp w n p hn hle
    obtain ⟨m, rfl⟩ := Nat.exists_eq_succ_of_ne_zero hn
    unfold handleWrite
    simp only [if_pos hle]

/-- C7 witness: the amended behaviour at the concrete malformed input. -/
theorem parse_error_400_keepalive_witness :
    handleRead fsEmpty none Client.init (.bytes "BAD\r\n".data)
      = .keep (sendResponse none Client.init (HttpResponse.error_page fsEmpty 400 none)) :=
  (parse_error_400_keepalive fsEmpty none Client.init "BAD\r\n".data
    "Invalid request line".data (by decide)).1

theorem find?_map_overwrite (k v : Str) : ∀ (hs : List (Str × Str)),
    hs.any (fun p => p.1 == k) = true →
    (hs.map (fun p => if p.1 == k then (k, v) else p)).find? (fun p => p.1 == k)
      = some (k, v) := by
  intro hs
  induction hs with
  | nil => intro h; simp at h
  | cons p hs ih =>
    intro h
    by_cases hpk : (p.1 == k) = true
    · rw [List.map_cons, if_pos hpk]
      exact List.find?_cons_of_pos _ (by simp)
    · have h2 : hs.any (fun p => p.1 == k) = true := by
        simp only [List.any_cons, hpk, Bool.false_or] at h
        exact h
      rw [List.map_cons, if_neg hpk, List.find?_cons_of_neg _ (by simp [hpk])]
      exact ih h2

theorem find?_append_single (k v : Str) : ∀ (hs : List (Str × Str)),
    hs.any (fun p => p.1 == k) = false →
    (hs ++ [(k, v)]).find? (fun p => p.1 == k) = some (k, v) := by
  intro hs
  induction hs with
  | nil =>
    intro h
    rw [List.nil_append]
    exact List.find?_cons_of_pos _ (by simp)
  | cons p hs ih =>
    intro h
    simp only [List.any_cons, Bool.or_eq_false_iff] at h
    rw [List.cons_append, List.find?_cons_of_neg _ (by simp [h.1])]
    exact ih h.2

/-- HashMap insert/get roundtrip on the association-list model. -/
theorem hGet_hInsert (k v : Str) (hs : List (Str × Str)) :
    hGet k (hInsert k v hs) = some v := by
  unfold hGet hInsert
  by_cases hany : hs.any (fun p => p.1 == k) = true
  · rw [if_pos hany, find?_map_overwrite k v hs hany]
    rfl
  · rw [if_neg hany, find?_append_single k v hs (by
      cases hx : hs.any (fun p => p.1 == k)
      · rfl
      · exact absurd hx hany)]
    rfl

/-- The inserted pair is in the map. -/
theorem mem_hInsert (k v : Str) (hs : List (Str × Str)) :
    (k, v) ∈ hInsert k v hs := by
  unfold hInsert
  split
  · rename_i hany
    obtain ⟨p, hp, hpk⟩ := List.any_eq_true.mp hany
    exact List.mem_map.mpr ⟨p, hp, by simp [hpk]⟩
  · simp

/-- Any map entry yields a header line inside the serialized header
block. -/
theorem headerLines_split (k v : Str) : ∀ (hs : List (Str × Str)), (k, v) ∈ hs →
    ∃ pre post, headerLines hs
      = pre ++ (k ++ ": ".data ++ v ++ "\r\n".data) ++ post := by
  intro hs
  induction hs with
  | nil => intro h; simp at h
  | cons p hs ih =>
    intro h
    rcases List.mem_cons.mp h with heq | hmem
    · refine ⟨[], headerLines hs, ?_⟩
      rw [← heq]
      simp [headerLines]
    · obtain ⟨pre, post, hsplit⟩ := ih hmem
      obtain ⟨pk, pv⟩ := p
      refine ⟨pk ++ ": ".data ++ pv ++ "\r\n".data ++ pre, post, ?_⟩
      rw [headerLines, hsplit]
      simp [List.append_assoc]

/-- C8 counterexample: the redirect produced by a route with
return 301 /new, and the 204 response of DELETE, carry no Content-Length
header at all; the serialized redirect bytes do not even contain the
string Content-Length. -/
theorem redirect_no_content_length_cex :
    Server.process_request fsEmpty { reqPut with method := "GET".data, uri := "/old".data }
        { cfgApi with routes := [routeRedir] }
      = .respond ((HttpResponse.new 301).add_header "Location".data "/new".data)
    ∧ hGet "Content-Length".data
        ((HttpResponse.new 301).add_header "Location".data "/new".data).headers = none
    ∧ containsSub "Content-Length".data
        ((HttpResponse.new 301).add_header "Location".data "/new".data).to_bytes = false
    ∧ hGet "Content-Length".data (HttpResponse.new 204).headers = none :=
  ⟨by decide, by decide, by decide, by decide⟩

/-- C8 amended: every response whose body is installed through set_body
carries Content-Length equal to the body length, both in the header map
and as a literal header line of the serialized output, whose emitted
body after the final blank line is exactly that body; but a response
built without set_body — the redirect responses and the 204 of DELETE —
has an empty body and carries no Content-Length header at all. -/
theorem response_content_length (r : HttpResponse) (b : Str) :
    hGet "Content-Length".data (r.set_body b).headers = some (natToStr b.length)
    ∧ (r.set_body b).body = b
    ∧ (∃ pre post, (r.set_body b).to_bytes
        = pre ++ ("Content-Length: ".data ++ natToStr b.length ++ "\r\n".data)
          ++ (post ++ "\r\n".data ++ b))
    ∧ (∀ (code : Nat) (loc : Str),
        hGet "Content-Length".data
          ((HttpResponse.new code).add_header "Location".data loc).headers = none
        ∧ ((HttpResponse.new code).add_header "Location".data loc).body = [])
    ∧ hGet "Content-Length".data (HttpResponse.new 204).headers = none := by
  refine ⟨hGet_hInsert _ _ _, rfl, ?_, fun code loc => ⟨rfl, rfl⟩, rfl⟩
  have hmem : ("Content-Length".data, natToStr b.length) ∈ (r.set_body b).headers :=
    mem_hInsert _ _ _
  obtain ⟨pre, post, hsplit⟩ := headerLines_split _ _ _ hmem
  refine ⟨"HTTP/1.1 ".data ++ natToStr (r.set_body b).status_code ++ " ".data
    ++ (r.set_body b).status_text ++ "\r\n".data ++ pre, post, ?_⟩
  have hline : ("Content-Length".data ++ ": ".data ++ natToStr b.length ++ "\r\n".data)
      = ("Content-Length: ".data ++ natToStr b.length ++ "\r\n".data) := by
    have hcl : "Content-Length".data ++ ": ".data = "Content-Length: ".data := by decide
    rw [← hcl]
    try simp [List.append_assoc]
  unfold HttpResponse.to_bytes
  rw [hsplit, hline]
  have hbody : (r.set_body b).body = b := rfl
  rw [hbody]
  simp [List.append_assoc]

/-- Inserting a different key preserves absence of a key. -/
theorem hInsert_any_ne (k k' v : Str) (hs : List (Str × Str)) (hne : k' ≠ k)
    (h : hs.any (fun p => p.1 == k) = false) :
    (hInsert k' v hs).any (fun p => p.1 == k) = false := by
  unfold hInsert
  split
  · rw [List.any_map]
    rw [List.any_eq_false] at h ⊢
    intro p hp
    simp only [Function.comp]
    by_cases hpk : (p.1 == k') = true
    · rw [if_pos hpk]
      simp [beq_eq_false_iff_ne.mpr hne]
    · rw [if_neg hpk]
      exact h p hp
  · rw [List.any_append, h]
    simp [beq_eq_false_iff_ne.mpr hne]

/-- Inserting a different key preserves membership. -/
theorem mem_hInsert_of_ne (k v k' v' : Str) (hs : List (Str × Str)) (hne : k' ≠ k)
    (h : (k', v') ∈ hs) : (k', v') ∈ hInsert k v hs := by
  unfold hInsert
  split
  · refine List.mem_map.mpr ⟨(k', v'), h, ?_⟩
    rw [if_neg (by simp [hne])]
  · exact List.mem_append_left _ h

/-- The CGI header-copy loop of execute_cgi does not change the status
code of the response it decorates. -/
theorem foldl_addheader_status (hs : List (Str × Str)) (r : HttpResponse) :
    (hs.foldl (fun r p => if p.1 ≠ "status".data then r.add_header p.1 p.2 else r) r).status_code
      = r.status_code := by
  induction hs generalizing r with
  | nil => rfl
  | cons p hs ih =>
    rw [List.foldl_cons, ih]
    by_cases hp : p.1 ≠ "status".data
    · rw [if_pos hp]
      rfl
    · rw [if_neg hp]

/-- The CGI header-copy loop keeps a key absent if no copied header
carries it. -/
theorem foldl_addheader_no_key (k : Str) : ∀ (hs : List (Str × Str)) (r : HttpResponse),
    r.headers.any (fun p => p.1 == k) = false →
    (∀ p ∈ hs, p.1 ≠ k) →
    ((hs.foldl (fun r p => if p.1 ≠ "status".data then r.add_header p.1 p.2 else r) r).headers.any
      (fun p => p.1 == k)) = false := by
  intro hs
  induction hs with
  | nil => intro r hr _; exact hr
  | cons p hs ih =>
    intro r hr hl
    rw [List.foldl_cons]
    apply ih
    · by_cases hp : p.1 ≠ "status".data
      · rw [if_pos hp]
        exact hInsert_any_ne k p.1 p.2 r.headers (hl p (by simp)) hr
      · rw [if_neg hp]
        exact hr
    · intro q hq
      exact hl q (List.mem_cons_of_mem p hq)

/-- The status code picked by execute_cgi from the parsed CGI headers. -/
theorem cgiResponseOf_status (hs : List (Str × Str)) (body : Str) :
    (cgiResponseOf hs body).status_code
      = (((hGet "status".data hs).bind (fun s => (splitWs s).head?)).bind parseU16).getD 200 := by
  simp only [cgiResponseOf]
  split
  · exact foldl_addheader_status hs _
  · exact foldl_addheader_status hs _

/-- C9: CGI output handling.  Concretely, output
Status: 201 Created(CRLF CRLF)foo parses to a status header and body foo,
and the resulting response serializes with status line
HTTP/1.1 201 Created and body foo.  Generally: a header block terminated
by CRLFCRLF is split there (LFLF is the fallback); the response status is
the value of the Status pseudo-header's first whitespace token parsed as
an integer, 200 when there is no Status header; the CGI body is installed
as the response body; and Content-Type: text/html is added when the CGI
headers carry none. -/
theorem cgi_status_response :
    (parseCgiOutput "Status: 201 Created\r\n\r\nfoo".data
      = ([("status".data, "201 Created".data)], "foo".data))
    ∧ ("HTTP/1.1 201 Created\r\n".data <+:
        (cgiResponseOf [("status".data, "201 Created".data)] "foo".data).to_bytes)
    ∧ ((cgiResponseOf [("status".data, "201 Created".data)] "foo".data).body = "foo".data)
    ∧ (∀ (out : Str) (pos : Nat), findSub "\r\n\r\n".data out = some pos →
        parseCgiOutput out = (cgiHeadersOf (rustLines (out.take pos)), out.drop (pos + 4)))
    ∧ (∀ (hs : List (Str × Str)) (body st tok : Str) (n : Nat),
        hGet "status".data hs = some st → (splitWs st).head? = some tok →
        parseU16 tok = some n →
        (cgiResponseOf hs body).status_code = n ∧ (cgiResponseOf hs body).body = body)
    ∧ (∀ (hs : List (Str × Str)) (body : Str), hGet "status".data hs = none →
        (cgiResponseOf hs body).status_code = 200)
    ∧ (∀ (hs : List (Str × Str)) (body : Str),
        (∀ p ∈ hs, p.1 ≠ "Content-Type".data) →
        ("Content-Type".data, "text/html".data) ∈ (cgiResponseOf hs body).headers) := by
  refine ⟨by decide, by decide, by decide, ?_, ?_, ?_, ?_⟩
  · intro out pos h
    unfold parseCgiOutput
    simp only [h]
  · intro hs body st tok n hst htok hn
    constructor
    · rw [cgiResponseOf_status, hst]
      simp [htok, hn]
    · rfl
  · intro hs body hnone
    rw [cgiResponseOf_status, hnone]
    rfl
  · intro hs body hct
    simp only [cgiResponseOf]
    have hfold := foldl_addheader_no_key "Content-Type".data hs
      (HttpResponse.new ((((hGet "status".data hs).bind
        (fun s => (splitWs s).head?)).bind parseU16).getD 200)) rfl hct
    simp only [hfold, Bool.false_eq_true, if_false]
    exact mem_hInsert_of_ne "Content-Length".data (natToStr body.length)
      "Content-Type".data "text/html".data _ (by decide) (mem_hInsert _ _ _)

/-- C9 witness: Status: 202 Accepted with a Content-Type supplied by the
script keeps status 202; with no Status header the status defaults to
200 and text/html is added. -/
theorem cgi_status_response_witness :
    (cgiResponseOf [("status".data, "202 Accepted".data)] "x".data).status_code = 202
    ∧ (cgiResponseOf [("status".data, "202 Accepted".data)] "x".data).body = "x".data
    ∧ (cgiResponseOf [("a".data, "b".data)] "x".data).status_code = 200
    ∧ ("Content-Type".data, "text/html".data)
        ∈ (cgiResponseOf [("a".data, "b".data)] "x".data).headers :=
  ⟨(cgi_status_response.2.2.2.2.1 [("status".data, "202 Accepted".data)] "x".data
      "202 Accepted".data "202".data 202 (by decide) (by decide) (by decide)).1,
   (cgi_status_response.2.2.2.2.1 [("status".data, "202 Accepted".data)] "x".data
      "202 Accepted".data "202".data 202 (by decide) (by decide) (by decide)).2,
   cgi_status_response.2.2.2.2.2.1 [("a".data, "b".data)] "x".data (by decide),
   cgi_status_response.2.2.2.2.2.2 [("a".data, "b".data)] "x".data (by decide)⟩
